import Mathlib

/-!
Shallow embedding of the supply-chain firewall's pip command adapter
(`src/scfw/commands/pip_command.py`) and command-line hinge parsing
(`src/scfw/cli.py`), together with theorems settling the spec claims.

Subprocess invocation is modelled by passing an oracle
`probe : List String → ProbeResult` giving, for each argument vector, the
exit code and captured stdout of the spawned process; the functions also
return the list of argument vectors they spawned, so that "the probe is
never invoked" is expressible.
-/

/-- Modelled from the spec: the `Ecosystem` closed enumeration from the
missing `scfw/ecosystem.py` ("closed enumeration {Pip, Npm}", program
names "pip" and "npm"). -/
inductive ECOSYSTEM where
  | PIP : ECOSYSTEM
  | NPM : ECOSYSTEM
deriving DecidableEq, Repr

/-- Modelled from the spec: each ecosystem's program-name token
(`ecosystem.value` in `cli.py`), e.g. "pip", "npm". -/
def ECOSYSTEM.value : ECOSYSTEM → String
  | ECOSYSTEM.PIP => "pip"
  | ECOSYSTEM.NPM => "npm"

/-- Modelled from the spec: iteration order over the closed enumeration
(`for ecosystem in ECOSYSTEM` in `cli.py`). -/
def allEcosystems : List ECOSYSTEM := [ECOSYSTEM.PIP, ECOSYSTEM.NPM]

/-- Modelled from the spec: `InstallTarget` from the missing
`scfw/target.py`: "an ecosystem-tagged (package, version) pair". -/
structure InstallTarget where
  ecosystem : ECOSYSTEM
  package : String
  version : String
deriving DecidableEq, Repr

/-- The observable outcome of one subprocess invocation: its exit code and
captured standard output (`subprocess.run(..., capture_output=True)`). -/
structure ProbeResult where
  exitCode : Nat
  stdout : String
deriving DecidableEq, Repr

/-- Split a character list at every character satisfying `p`, keeping empty
segments: the semantics of Python `str.split(sep)` for a one-character
separator when `p` tests that character. `[] ↦ [[]]` as in Python. -/
def splitWhen (p : Char → Bool) : List Char → List (List Char)
  | [] => [[]]
  | c :: cs =>
    let r := splitWhen p cs
    if p c then [] :: r
    else
      match r with
      | [] => [[c]]
      | g :: gs => (c :: g) :: gs

/-- Python `str.split()` with no argument: split on whitespace runs,
discarding empty segments. -/
def pySplit (l : List Char) : List (List Char) :=
  (splitWhen (fun c => c.isWhitespace) l).filter (fun g => ¬ g.isEmpty)

/-- Python `str.rpartition(sep)` restricted to what the source uses:
`some (before, after)` splitting at the LAST occurrence of `sep`, or
`none` when `sep` does not occur (Python then returns `('', '', s)`, and
the source detects this case by `version == target_str`). -/
def rpartitionChar (sep : Char) : List Char → Option (List Char × List Char)
  | [] => none
  | c :: cs =>
    match rpartitionChar sep cs with
    | some (a, b) => some (c :: a, b)
    | none => if c = sep then some ([], cs) else none

/-- The fixed marker phrase looked for in the dry-run probe's stdout. -/
def wouldInstallMarker : List Char := "Would install".toList

/-- Fields of `PipCommand` after `__init__`: the stored raw command, the
index of the first token of the `install` subcommand (if any), and the
resolved executable. -/
structure PipCommand where
  command : List String
  installSubcommand : Option Nat
  executable : String
deriving DecidableEq, Repr

/-- Constructor `PipCommand.__init__`: rejects a command that is empty or whose first
token is not "pip"; records the index one past the first "install" token
unless "install" is absent or any of `-h`, `--help`, `--dry-run` occurs;
resolves the executable (the environment-derived default is passed in as
`env_executable`, abstracting `get_executable()`). -/
def PipCommand.init (command : List String) (executable : Option String)
    (env_executable : String) : Except String PipCommand :=
  if command.head? = some "pip" then
    let installSub :=
      if "install" ∈ command ∧
          ¬ ("-h" ∈ command ∨ "--help" ∈ command ∨ "--dry-run" ∈ command) then
        some (command.findIdx (fun t => t == "install") + 1)
      else
        none
    Except.ok ⟨command, installSub, executable.getD env_executable⟩
  else
    Except.error "Malformed pip command"

/-- Inner function `str_to_install_target` of `would_install`: right-partition the token
at its last hyphen; fail iff the token has no hyphen (Python's
`version == target_str` test). -/
def str_to_install_target (target_str : List Char) : Except String InstallTarget :=
  match rpartitionChar '-' target_str with
  | some (package, version) =>
      Except.ok ⟨ECOSYSTEM.PIP, String.mk package, String.mk version⟩
  | none => Except.error "Failed to parse pip install target"

/-- The synthesized dry-run argument vector: `[executable, "-m"]` followed by
the command tokens before index `idx`, then `"--dry-run"`, then the rest. -/
def dry_run_command (cmd : PipCommand) (idx : Nat) : List String :=
  [cmd.executable, "-m"] ++ cmd.command.take idx ++ ["--dry-run"] ++ cmd.command.drop idx

/-- Python `list(map(str_to_install_target, ...))`: map each token left to right,
the first parse failure aborting the whole list (no partial results). -/
def mapTargets : List (List Char) → Except String (List InstallTarget)
  | [] => Except.ok []
  | t :: ts =>
    match str_to_install_target t with
    | Except.ok target =>
      match mapTargets ts with
      | Except.ok targets => Except.ok (target :: targets)
      | Except.error e => Except.error e
    | Except.error e => Except.error e

/-- The loop over `dry_run.stdout.split('\n')`: return the parse of the
first line starting with the marker, or `[]` when no line does.
A line's targets are `line.split()[2:]` mapped through
`str_to_install_target`, failing as a whole on the first bad token. -/
def scanLines : List (List Char) → Except String (List InstallTarget)
  | [] => Except.ok []
  | l :: ls =>
    if wouldInstallMarker.isPrefixOf l then
      mapTargets ((pySplit l).drop 2)
    else
      scanLines ls

/-- Method `PipCommand.would_install`, with the subprocess boundary passed in as
`probe`. Returns the Python function's outcome together with the list of
argument vectors it spawned (empty when no subprocess was invoked).
A nonzero probe exit code is the `CalledProcessError` of `check=True`. -/
def PipCommand.would_install (cmd : PipCommand) (probe : List String → ProbeResult) :
    Except String (List InstallTarget) × List (List String) :=
  match cmd.installSubcommand with
  | none => (Except.ok [], [])
  | some idx =>
    let dry := dry_run_command cmd idx
    let res := probe dry
    if res.exitCode = 0 then
      (scanLines (splitWhen (fun c => c = '\n') res.stdout.toList), [dry])
    else
      (Except.error "pip dry-run probe exited with nonzero status", [dry])

/-- Method `PipCommand.run`, with the subprocess boundary passed in as `exec_sub`
giving the spawned process's exit status. Returns that status together
with the list of argument vectors spawned. Modelled from the spec: the
orchestrator (not under src/) takes the spawned process's exit status as
the outcome of the run ("inherits stdio, propagates exit status"). -/
def PipCommand.run (cmd : PipCommand) (exec_sub : List String → Nat) :
    Nat × List (List String) :=
  let argv := [cmd.executable, "-m"] ++ cmd.command
  (exec_sub argv, [argv])

/-- The firewall's own subcommands (`Subcommand` in `cli.py`). -/
inductive Subcommand where
  | Configure : Subcommand
  | Run : Subcommand
deriving DecidableEq, Repr

/-- The result of `parser.parse_args` on the firewall-owned slice of the
argument vector, abstracting argparse: only the selected subcommand is
relevant to the claims. -/
structure ParsedArgs where
  subcommand : Subcommand
deriving DecidableEq, Repr

/-- The `Namespace` returned by `_parse_command_line` on success: the
selected subcommand and, for `run`, the wrapped package-manager command
(empty for `configure`). -/
structure CliResult where
  subcommand : Subcommand
  command : List String
deriving DecidableEq, Repr

/-- The hinge computation of `_parse_command_line`: starting from
`len(argv)`, minimize over each ecosystem's first occurrence index in
`argv` (absent ecosystems contribute nothing). -/
def hinge (argv : List String) : Nat :=
  allEcosystems.foldl
    (fun h eco =>
      match argv.findIdx? (fun a => a == eco.value) with
      | some i => min h i
      | none => h)
    argv.length

/-- Function `_parse_command_line` (modelled without its leading underscore): parse `argv[1:hinge]` with the argparse parser
(abstracted as `parse`; `none` is an `ArgumentError`), then match the
subcommand against the tail `argv[hinge:]`: `run` with an empty tail is an
error, `run` otherwise stores the tail verbatim under `command`, any other
subcommand with a nonempty tail is an error. -/
def parse_command_line (parse : List String → Option ParsedArgs)
    (argv : List String) : Option CliResult :=
  match parse ((argv.drop 1).take (hinge argv - 1)) with
  | none => none
  | some args =>
    match args.subcommand, argv.drop (hinge argv) with
    | Subcommand.Run, [] => none
    | Subcommand.Run, _ => some ⟨Subcommand.Run, argv.drop (hinge argv)⟩
    | sub, [] => some ⟨sub, []⟩
    | _, _ => none

/-! ### Helper lemmas about `rpartitionChar` and `str_to_install_target` -/

theorem rpartitionChar_ne_none_of_mem (sep : Char) (l : List Char)
    (h : sep ∈ l) : rpartitionChar sep l ≠ none := by
  induction l with
  | nil => simp at h
  | cons c cs ih =>
    rw [rpartitionChar]
    rcases List.mem_cons.mp h with hc | hc
    · cases hr : rpartitionChar sep cs <;> simp [hr, hc]
    · cases hr : rpartitionChar sep cs with
      | some p => simp [hr]
      | none => exact absurd hr (ih hc)

theorem rpartitionChar_some_spec (sep : Char) (l a b : List Char)
    (h : rpartitionChar sep l = some (a, b)) :
    a ++ sep :: b = l ∧ sep ∉ b := by
  induction l generalizing a b with
  | nil => simp [rpartitionChar] at h
  | cons c cs ih =>
    rw [rpartitionChar] at h
    cases hr : rpartitionChar sep cs with
    | some p =>
      obtain ⟨a', b'⟩ := p
      rw [hr] at h
      injection h with h
      injection h with h1 h2
      obtain ⟨ih1, ih2⟩ := ih a' b' hr
      subst h2
      rw [← h1]
      exact ⟨by rw [List.cons_append, ih1], ih2⟩
    | none =>
      rw [hr] at h
      by_cases hc : c = sep
      · rw [if_pos hc] at h
        injection h with h
        injection h with h1 h2
        subst hc h2
        rw [← h1]
        refine ⟨rfl, fun hmem => ?_⟩
        exact rpartitionChar_ne_none_of_mem c cs hmem hr
      · rw [if_neg hc] at h
        exact absurd h (by simp)

theorem rpartitionChar_eq_none_of_not_mem (sep : Char) (l : List Char)
    (h : sep ∉ l) : rpartitionChar sep l = none := by
  cases hr : rpartitionChar sep l with
  | none => rfl
  | some p =>
    obtain ⟨a, b⟩ := p
    obtain ⟨heq, -⟩ := rpartitionChar_some_spec sep l a b hr
    exact absurd (heq ▸ List.mem_append_right a (List.mem_cons_self sep b)) h

theorem str_to_install_target_ok_spec (t : List Char) (target : InstallTarget)
    (h : str_to_install_target t = Except.ok target) :
    target.package.toList ++ '-' :: target.version.toList = t ∧
      '-' ∉ target.version.toList ∧ target.ecosystem = ECOSYSTEM.PIP := by
  rw [str_to_install_target] at h
  cases hr : rpartitionChar '-' t with
  | some p =>
    obtain ⟨a, b⟩ := p
    rw [hr] at h
    simp only [Except.ok.injEq] at h
    subst h
    obtain ⟨h1, h2⟩ := rpartitionChar_some_spec '-' t a b hr
    exact ⟨h1, h2, rfl⟩
  | none => rw [hr] at h; exact absurd h (by simp)

theorem str_to_install_target_ok_of_mem (t : List Char) (h : '-' ∈ t) :
    ∃ target, str_to_install_target t = Except.ok target := by
  rw [str_to_install_target]
  cases hr : rpartitionChar '-' t with
  | some p => exact ⟨_, rfl⟩
  | none => exact absurd hr (rpartitionChar_ne_none_of_mem '-' t h)

theorem str_to_install_target_error_of_not_mem (t : List Char) (h : '-' ∉ t) :
    ∃ e, str_to_install_target t = Except.error e := by
  rw [str_to_install_target, rpartitionChar_eq_none_of_not_mem '-' t h]
  exact ⟨_, rfl⟩

/-! ### Helper lemmas about `mapTargets`, `scanLines` and `would_install` -/

/-- The relation between a constructed target and the reported token it came
from: the token is the package, a hyphen, and the version, with the version
hyphen-free (so the split is at the token's LAST hyphen), tagged PIP. -/
def TokenParses (target : InstallTarget) (t : List Char) : Prop :=
  target.package.toList ++ '-' :: target.version.toList = t ∧
    '-' ∉ target.version.toList ∧ target.ecosystem = ECOSYSTEM.PIP

theorem mapTargets_ok_of_forall (ts : List (List Char))
    (h : ∀ t ∈ ts, '-' ∈ t) :
    ∃ targets, mapTargets ts = Except.ok targets ∧
      List.Forall₂ TokenParses targets ts := by
  induction ts with
  | nil => exact ⟨[], rfl, List.Forall₂.nil⟩
  | cons t ts ih =>
    obtain ⟨target, htarget⟩ :=
      str_to_install_target_ok_of_mem t (h t (List.mem_cons_self t ts))
    obtain ⟨targets, htargets, hrel⟩ := ih (fun u hu => h u (List.mem_cons_of_mem t hu))
    refine ⟨target :: targets, ?_, List.Forall₂.cons ?_ hrel⟩
    · rw [mapTargets, htarget, htargets]
    · exact str_to_install_target_ok_spec t target htarget

theorem mapTargets_error_of_mem (ts : List (List Char)) (t : List Char)
    (ht : t ∈ ts) (hbad : '-' ∉ t) :
    ∃ e, mapTargets ts = Except.error e := by
  induction ts with
  | nil => simp at ht
  | cons u us ih =>
    rw [mapTargets]
    rcases List.mem_cons.mp ht with hu | hu
    · subst hu
      obtain ⟨e, he⟩ := str_to_install_target_error_of_not_mem t hbad
      rw [he]
      exact ⟨e, rfl⟩
    · cases hs : str_to_install_target u with
      | ok target =>
        obtain ⟨e, he⟩ := ih hu
        rw [he]
        exact ⟨e, rfl⟩
      | error e => exact ⟨e, rfl⟩

theorem scanLines_eq_find (ls : List (List Char)) :
    scanLines ls =
      match ls.find? (fun l => wouldInstallMarker.isPrefixOf l) with
      | none => Except.ok []
      | some l => mapTargets ((pySplit l).drop 2) := by
  induction ls with
  | nil => rfl
  | cons l ls ih =>
    rw [scanLines]
    cases hp : wouldInstallMarker.isPrefixOf l with
    | true =>
      rw [if_pos rfl, List.find?_cons_of_pos _ hp]
    | false =>
      rw [if_neg (by simp), List.find?_cons_of_neg _ (by simp [hp]), ih]

theorem would_install_of_probe_ok (cmd : PipCommand)
    (probe : List String → ProbeResult) (idx : Nat)
    (hidx : cmd.installSubcommand = some idx)
    (h0 : (probe (dry_run_command cmd idx)).exitCode = 0) :
    cmd.would_install probe =
      (scanLines (splitWhen (fun c => c = '\n')
        (probe (dry_run_command cmd idx)).stdout.toList),
       [dry_run_command cmd idx]) := by
  simp [PipCommand.would_install, hidx, h0]

theorem would_install_of_probe_fail (cmd : PipCommand)
    (probe : List String → ProbeResult) (idx : Nat)
    (hidx : cmd.installSubcommand = some idx)
    (h0 : (probe (dry_run_command cmd idx)).exitCode ≠ 0) :
    cmd.would_install probe =
      (Except.error "pip dry-run probe exited with nonzero status",
       [dry_run_command cmd idx]) := by
  simp [PipCommand.would_install, hidx, h0]

theorem would_install_of_no_subcommand (cmd : PipCommand)
    (probe : List String → ProbeResult)
    (hidx : cmd.installSubcommand = none) :
    cmd.would_install probe = (Except.ok [], []) := by
  simp [PipCommand.would_install, hidx]

/-! ### Helper lemmas about `List.findIdx?` and the `hinge` computation -/

theorem findIdx?_some_spec {α : Type} (p : α → Bool) (l : List α) (i : Nat)
    (h : l.findIdx? p = some i) :
    (∃ x, l.get? i = some x ∧ p x = true) ∧
      ∀ j, j < i → ∀ x, l.get? j = some x → p x = false := by
  induction l generalizing i with
  | nil => simp [List.findIdx?_nil] at h
  | cons c cs ih =>
    have hc : (c :: cs).findIdx? p =
        if p c then some 0 else (cs.findIdx? p).map (fun n => n + 1) := by
      simp [List.findIdx?_cons]
    rw [hc] at h
    by_cases hp : p c
    · rw [if_pos hp] at h
      injection h with h
      subst h
      exact ⟨⟨c, rfl, hp⟩, fun j hj => absurd hj (Nat.not_lt_zero j)⟩
    · rw [if_neg hp] at h
      rcases Option.map_eq_some'.mp h with ⟨i', hi', rfl⟩
      obtain ⟨⟨x, hx, hpx⟩, hlt⟩ := ih i' hi'
      refine ⟨⟨x, by simpa using hx, hpx⟩, fun j hj y hy => ?_⟩
      cases j with
      | zero =>
        simp only [List.get?_cons_zero, Option.some.injEq] at hy
        subst hy
        exact Bool.eq_false_iff.mpr hp
      | succ j' =>
        exact hlt j' (Nat.lt_of_succ_lt_succ hj) y (by simpa using hy)

theorem findIdx?_none_spec {α : Type} (p : α → Bool) (l : List α)
    (h : l.findIdx? p = none) :
    ∀ j x, l.get? j = some x → p x = false := by
  induction l with
  | nil => intro j x hx; simp at hx
  | cons c cs ih =>
    have hc : (c :: cs).findIdx? p =
        if p c then some 0 else (cs.findIdx? p).map (fun n => n + 1) := by
      simp [List.findIdx?_cons]
    rw [hc] at h
    by_cases hp : p c
    · rw [if_pos hp] at h
      exact absurd h (by simp)
    · rw [if_neg hp] at h
      have hnone : cs.findIdx? p = none := Option.map_eq_none'.mp h
      intro j x hx
      cases j with
      | zero =>
        simp only [List.get?_cons_zero, Option.some.injEq] at hx
        subst hx
        exact Bool.eq_false_iff.mpr hp
      | succ j' => exact ih hnone j' x (by simpa using hx)

theorem findIdx?_le_of_get? {α : Type} (p : α → Bool) (l : List α) (i : Nat)
    (x : α) (hx : l.get? i = some x) (hp : p x = true) :
    ∃ i₀, l.findIdx? p = some i₀ ∧ i₀ ≤ i := by
  induction l generalizing i with
  | nil => simp at hx
  | cons c cs ih =>
    have hc : (c :: cs).findIdx? p =
        if p c then some 0 else (cs.findIdx? p).map (fun n => n + 1) := by
      simp [List.findIdx?_cons]
    by_cases hpc : p c
    · exact ⟨0, by rw [hc, if_pos hpc], Nat.zero_le i⟩
    · cases i with
      | zero =>
        simp only [List.get?_cons_zero, Option.some.injEq] at hx
        subst hx
        exact absurd hp (by simpa using hpc)
      | succ i' =>
        obtain ⟨i₀, h1, h2⟩ := ih i' (by simpa using hx)
        exact ⟨i₀ + 1, by rw [hc, if_neg hpc, h1]; rfl, Nat.succ_le_succ h2⟩

theorem lt_length_of_get?_some {α : Type} (l : List α) (i : Nat) (x : α)
    (h : l.get? i = some x) : i < l.length := by
  by_contra hcon
  rw [List.get?_eq_none.mpr (Nat.le_of_not_lt hcon)] at h
  exact absurd h (by simp)

theorem hinge_eq (argv : List String) :
    hinge argv =
      (argv.findIdx? (fun a => a == "npm")).elim
        ((argv.findIdx? (fun a => a == "pip")).elim argv.length
          (fun j => min argv.length j))
        (fun i => min ((argv.findIdx? (fun a => a == "pip")).elim argv.length
          (fun j => min argv.length j)) i) := by
  unfold hinge allEcosystems
  simp only [List.foldl, ECOSYSTEM.value]
  cases argv.findIdx? (fun a => a == "pip") <;>
    cases argv.findIdx? (fun a => a == "npm") <;> simp [Option.elim]

theorem hinge_le_length (argv : List String) : hinge argv ≤ argv.length := by
  rw [hinge_eq]
  cases argv.findIdx? (fun a => a == "npm") <;>
    cases argv.findIdx? (fun a => a == "pip") <;> simp [Option.elim]

theorem hinge_le_of_ecosystem_token (argv : List String) (i : Nat) (v : String)
    (hv : v = "pip" ∨ v = "npm") (hi : argv.get? i = some v) :
    hinge argv ≤ i := by
  rw [hinge_eq]
  rcases hv with rfl | rfl
  · obtain ⟨i₀, h1, h2⟩ :=
      findIdx?_le_of_get? (fun a => a == "pip") argv i _ hi (by simp)
    have hlen : i₀ < argv.length := by
      obtain ⟨⟨x, hx, -⟩, -⟩ := findIdx?_some_spec _ argv i₀ h1
      exact lt_length_of_get?_some argv i₀ x hx
    rw [h1]
    cases argv.findIdx? (fun a => a == "npm") <;> simp [Option.elim] <;> omega
  · obtain ⟨i₀, h1, h2⟩ :=
      findIdx?_le_of_get? (fun a => a == "npm") argv i _ hi (by simp)
    rw [h1]
    cases argv.findIdx? (fun a => a == "pip") <;> simp [Option.elim] <;> omega

theorem hinge_get_ecosystem (argv : List String)
    (h : hinge argv < argv.length) :
    ∃ v, (v = "pip" ∨ v = "npm") ∧ argv.get? (hinge argv) = some v := by
  cases hnpm : argv.findIdx? (fun a => a == "npm") with
  | none =>
    cases hpip : argv.findIdx? (fun a => a == "pip") with
    | none =>
      rw [hinge_eq, hpip, hnpm] at h
      exact absurd h (by simp)
    | some j =>
      obtain ⟨⟨x, hx, hpx⟩, -⟩ := findIdx?_some_spec _ argv j hpip
      have hj : j < argv.length := lt_length_of_get?_some argv j x hx
      have hval : hinge argv = j := by
        rw [hinge_eq, hpip, hnpm]
        simp only [Option.elim_none, Option.elim_some]
        exact Nat.min_eq_right (Nat.le_of_lt hj)
      exact ⟨x, Or.inl (eq_of_beq hpx), hval ▸ hx⟩
  | some i =>
    cases hpip : argv.findIdx? (fun a => a == "pip") with
    | none =>
      obtain ⟨⟨x, hx, hpx⟩, -⟩ := findIdx?_some_spec _ argv i hnpm
      have hi : i < argv.length := lt_length_of_get?_some argv i x hx
      have hval : hinge argv = i := by
        rw [hinge_eq, hpip, hnpm]
        simp only [Option.elim_none, Option.elim_some]
        exact Nat.min_eq_right (Nat.le_of_lt hi)
      exact ⟨x, Or.inr (eq_of_beq hpx), hval ▸ hx⟩
    | some j =>
      obtain ⟨⟨x, hx, hpx⟩, -⟩ := findIdx?_some_spec _ argv i hnpm
      obtain ⟨⟨y, hy, hpy⟩, -⟩ := findIdx?_some_spec _ argv j hpip
      have hi : i < argv.length := lt_length_of_get?_some argv i x hx
      have hj : j < argv.length := lt_length_of_get?_some argv j y hy
      have hval : hinge argv = min j i := by
        rw [hinge_eq, hpip, hnpm]
        simp only [Option.elim_some]
        rw [Nat.min_eq_right (Nat.le_of_lt hj)]
      rcases Nat.le_total j i with hle | hle
      · rw [Nat.min_eq_left hle] at hval
        exact ⟨y, Or.inl (eq_of_beq hpy), hval ▸ hy⟩
      · rw [Nat.min_eq_right hle] at hval
        exact ⟨x, Or.inr (eq_of_beq hpx), hval ▸ hx⟩

/-! ### Bridge lemmas -/

theorem init_ok_spec (command : List String) (exe : Option String) (env : String)
    (cmd : PipCommand) (h : PipCommand.init command exe env = Except.ok cmd) :
    command.head? = some "pip" ∧ cmd.command = command ∧
      cmd.executable = exe.getD env ∧
      cmd.installSubcommand =
        (if "install" ∈ command ∧
            ¬ ("-h" ∈ command ∨ "--help" ∈ command ∨ "--dry-run" ∈ command) then
          some (command.findIdx (fun t => t == "install") + 1)
        else none) := by
  rw [PipCommand.init] at h
  by_cases hh : command.head? = some "pip"
  · rw [if_pos hh] at h
    injection h with h
    subst h
    exact ⟨hh, rfl, rfl, rfl⟩
  · rw [if_neg hh] at h
    exact absurd h (by simp)

theorem mapTargets_ok_spec (ts : List (List Char)) (targets : List InstallTarget)
    (h : mapTargets ts = Except.ok targets) :
    List.Forall₂ TokenParses targets ts := by
  induction ts generalizing targets with
  | nil =>
    rw [mapTargets] at h
    injection h with h
    subst h
    exact List.Forall₂.nil
  | cons t ts ih =>
    rw [mapTargets] at h
    cases hs : str_to_install_target t with
    | ok target =>
      rw [hs] at h
      cases hm : mapTargets ts with
      | ok rest =>
        rw [hm] at h
        injection h with h
        subst h
        exact List.Forall₂.cons (str_to_install_target_ok_spec t target hs) (ih rest hm)
      | error e =>
        rw [hm] at h
        exact absurd h (by simp)
    | error e =>
      rw [hs] at h
      exact absurd h (by simp)

theorem scanLines_of_find_some (ls : List (List Char)) (l : List Char)
    (h : ls.find? (fun u => wouldInstallMarker.isPrefixOf u) = some l) :
    scanLines ls = mapTargets ((pySplit l).drop 2) := by
  rw [scanLines_eq_find, h]

theorem scanLines_of_find_none (ls : List (List Char))
    (h : ls.find? (fun u => wouldInstallMarker.isPrefixOf u) = none) :
    scanLines ls = Except.ok [] := by
  rw [scanLines_eq_find, h]

theorem would_install_spawns (cmd : PipCommand)
    (probe : List String → ProbeResult) (idx : Nat)
    (hidx : cmd.installSubcommand = some idx) :
    (cmd.would_install probe).2 = [dry_run_command cmd idx] := by
  by_cases h0 : (probe (dry_run_command cmd idx)).exitCode = 0
  · rw [would_install_of_probe_ok cmd probe idx hidx h0]
  · rw [would_install_of_probe_fail cmd probe idx hidx h0]

theorem findIdx_append_cons (pre post : List String) (x : String)
    (hpre : x ∉ pre) :
    (pre ++ x :: post).findIdx (fun t => t == x) = pre.length := by
  induction pre with
  | nil => simp [List.findIdx_cons]
  | cons c cs ih =>
    have hc : (c == x) = false := by
      refine beq_eq_false_iff_ne.mpr (fun hcx => ?_)
      exact hpre (hcx ▸ List.mem_cons_self c cs)
    rw [List.cons_append, List.findIdx_cons, hc]
    simp only [cond_false]
    rw [ih (fun hmem => hpre (List.mem_cons_of_mem c hmem))]
    rfl

theorem parse_command_line_run_command (parse : List String → Option ParsedArgs)
    (argv : List String) (r : CliResult)
    (h : parse_command_line parse argv = some r)
    (hr : r.subcommand = Subcommand.Run) :
    r.command = argv.drop (hinge argv) := by
  unfold parse_command_line at h
  cases hp : parse ((argv.drop 1).take (hinge argv - 1)) with
  | none =>
    rw [hp] at h
    exact absurd h (by simp)
  | some args =>
    rw [hp] at h
    obtain ⟨s⟩ := args
    cases s with
    | Run =>
      cases hd : argv.drop (hinge argv) with
      | nil =>
        rw [hd] at h
        exact absurd h (by simp)
      | cons x xs =>
        rw [hd] at h
        have hre : r = ⟨Subcommand.Run, x :: xs⟩ := by
          injection h with h
          exact h.symm
        rw [hre]
    | Configure =>
      cases hd : argv.drop (hinge argv) with
      | nil =>
        rw [hd] at h
        have hre : r = ⟨Subcommand.Configure, []⟩ := by
          injection h with h
          exact h.symm
        rw [hre] at hr
        exact absurd hr (by simp)
      | cons x xs =>
        rw [hd] at h
        exact absurd h (by simp)

/-! ### Claim theorems -/

/-- C1: for a well-formed pip install command whose successful dry-run probe
output contains a line starting with "Would install" followed by
whitespace-separated package-version tokens (each containing a hyphen),
would_install returns exactly one InstallTarget per token, in the same
order, each target's package being the text before the token's last hyphen
and its version the text after it. -/
theorem C1_would_install_parses_reported_tokens
    (cmd : PipCommand) (probe : List String → ProbeResult) (idx : Nat)
    (l : List Char) (toks : List (List Char))
    (hidx : cmd.installSubcommand = some idx)
    (h0 : (probe (dry_run_command cmd idx)).exitCode = 0)
    (hline : (splitWhen (fun c => c = '\n')
        (probe (dry_run_command cmd idx)).stdout.toList).find?
        (fun u => wouldInstallMarker.isPrefixOf u) = some l)
    (htoks : pySplit l = "Would".toList :: "install".toList :: toks)
    (hhyph : ∀ t ∈ toks, '-' ∈ t) :
    ∃ targets, (cmd.would_install probe).1 = Except.ok targets ∧
      List.Forall₂ TokenParses targets toks := by
  obtain ⟨targets, hok, hrel⟩ := mapTargets_ok_of_forall toks hhyph
  refine ⟨targets, ?_, hrel⟩
  rw [would_install_of_probe_ok cmd probe idx hidx h0]
  dsimp only
  rw [scanLines_of_find_some _ l hline, htoks]
  simpa using hok

/-- C1 witness: `pip install requests` with probe output
"Would install requests-2.31.0". -/
theorem C1_witness :
    ∃ targets,
      ((⟨["pip", "install", "requests"], some 2, "py"⟩ : PipCommand).would_install
        (fun _ => ⟨0, "Would install requests-2.31.0"⟩)).1 = Except.ok targets ∧
      List.Forall₂ TokenParses targets ["requests-2.31.0".toList] :=
  C1_would_install_parses_reported_tokens
    ⟨["pip", "install", "requests"], some 2, "py"⟩
    (fun _ => ⟨0, "Would install requests-2.31.0"⟩) 2
    "Would install requests-2.31.0".toList
    ["requests-2.31.0".toList]
    rfl rfl rfl rfl (by decide)

/-- C2: a successfully constructed pip command lacking the token "install",
or containing "-h", "--help" or "--dry-run" anywhere, makes would_install
return the empty list with no subprocess invocation at all. -/
theorem C2_help_or_dry_run_skips_probe
    (command : List String) (exe : Option String) (env : String)
    (cmd : PipCommand) (probe : List String → ProbeResult)
    (hinit : PipCommand.init command exe env = Except.ok cmd)
    (hcond : "install" ∉ command ∨ "-h" ∈ command ∨ "--help" ∈ command ∨
      "--dry-run" ∈ command) :
    cmd.would_install probe = (Except.ok [], []) := by
  obtain ⟨-, -, -, hsub⟩ := init_ok_spec command exe env cmd hinit
  refine would_install_of_no_subcommand cmd probe ?_
  rw [hsub, if_neg]
  tauto

/-- C2 witness: `pip install --dry-run x` resolves to no targets and never
spawns the probe, whatever the probe oracle would answer. -/
theorem C2_witness :
    (⟨["pip", "install", "--dry-run", "x"], none, "py"⟩ : PipCommand).would_install
      (fun _ => ⟨0, "Would install x-1.0"⟩) = (Except.ok [], []) :=
  C2_help_or_dry_run_skips_probe ["pip", "install", "--dry-run", "x"] none "py"
    ⟨["pip", "install", "--dry-run", "x"], none, "py"⟩
    (fun _ => ⟨0, "Would install x-1.0"⟩) rfl (by decide)

/-- C3: would_install propagates failure: a nonzero probe exit status yields
an error, and a reported token with no hyphen fails the entire resolution
with an error instead of any partial target list. -/
theorem C3_failure_propagation (cmd : PipCommand)
    (probe : List String → ProbeResult) (idx : Nat)
    (hidx : cmd.installSubcommand = some idx) :
    ((probe (dry_run_command cmd idx)).exitCode ≠ 0 →
      ∃ e, (cmd.would_install probe).1 = Except.error e) ∧
    (∀ l t, (probe (dry_run_command cmd idx)).exitCode = 0 →
      (splitWhen (fun c => c = '\n')
          (probe (dry_run_command cmd idx)).stdout.toList).find?
          (fun u => wouldInstallMarker.isPrefixOf u) = some l →
      t ∈ (pySplit l).drop 2 → '-' ∉ t →
      ∃ e, (cmd.would_install probe).1 = Except.error e) := by
  constructor
  · intro hne
    rw [would_install_of_probe_fail cmd probe idx hidx hne]
    exact ⟨_, rfl⟩
  · intro l t h0 hline ht hbad
    rw [would_install_of_probe_ok cmd probe idx hidx h0]
    dsimp only
    rw [scanLines_of_find_some _ l hline]
    exact mapTargets_error_of_mem _ t ht hbad

/-- C3 witness: a probe exiting with status 1 makes resolution fail. -/
theorem C3_witness :
    ∃ e, ((⟨["pip", "install", "x"], some 2, "py"⟩ : PipCommand).would_install
      (fun _ => ⟨1, ""⟩)).1 = Except.error e :=
  (C3_failure_propagation ⟨["pip", "install", "x"], some 2, "py"⟩
    (fun _ => ⟨1, ""⟩) 2 rfl).1 (by decide)

/-- C4: whenever the dry-run probe is synthesized, its argument vector is
the executable, "-m", the original tokens up to and including the first
"install", then "--dry-run", then all remaining original tokens in order. -/
theorem C4_probe_argument_vector
    (command pre post : List String) (exe : Option String) (env : String)
    (cmd : PipCommand) (probe : List String → ProbeResult) (idx : Nat)
    (hinit : PipCommand.init command exe env = Except.ok cmd)
    (hidx : cmd.installSubcommand = some idx)
    (hsplit : command = pre ++ "install" :: post)
    (hpre : "install" ∉ pre) :
    (cmd.would_install probe).2 =
      [[cmd.executable, "-m"] ++ pre ++ ["install", "--dry-run"] ++ post] := by
  obtain ⟨-, hcmd, -, hsub⟩ := init_ok_spec command exe env cmd hinit
  rw [would_install_spawns cmd probe idx hidx]
  have hidx' : idx = pre.length + 1 := by
    rw [hsub] at hidx
    by_cases hcond : "install" ∈ command ∧
        ¬ ("-h" ∈ command ∨ "--help" ∈ command ∨ "--dry-run" ∈ command)
    · rw [if_pos hcond] at hidx
      injection hidx with hidx
      rw [← hidx, hsplit, findIdx_append_cons pre post "install" hpre]
    · rw [if_neg hcond] at hidx
      exact absurd hidx (by simp)
  subst hidx'
  have hflat : pre ++ "install" :: post = (pre ++ ["install"]) ++ post := by simp
  have hlen : (pre ++ ["install"]).length = pre.length + 1 := by simp
  have htake : (pre ++ "install" :: post).take (pre.length + 1) = pre ++ ["install"] := by
    rw [hflat, ← hlen, List.take_left]
  have hdrop : (pre ++ "install" :: post).drop (pre.length + 1) = post := by
    rw [hflat, ← hlen, List.drop_left]
  rw [dry_run_command, hcmd, hsplit, htake, hdrop]
  simp

/-- C4 witness: `pip install requests` probes with
`py -m pip install --dry-run requests`. -/
theorem C4_witness :
    ((⟨["pip", "install", "requests"], some 2, "py"⟩ : PipCommand).would_install
      (fun _ => ⟨0, "Would install requests-2.31.0"⟩)).2 =
      [["py", "-m", "pip", "install", "--dry-run", "requests"]] :=
  C4_probe_argument_vector ["pip", "install", "requests"] ["pip"] ["requests"]
    none "py" ⟨["pip", "install", "requests"], some 2, "py"⟩
    (fun _ => ⟨0, "Would install requests-2.31.0"⟩) 2 rfl rfl rfl (by decide)

/-- C5 counterexample: the reported token "foo-" right-partitions into
package "foo" and the EMPTY version, and would_install returns it as a
target instead of failing, refuting the claimed non-emptiness. -/
theorem C5_counterexample :
    ((⟨["pip", "install", "x"], some 2, "py"⟩ : PipCommand).would_install
        (fun _ => ⟨0, "Would install foo-"⟩)).1 =
      Except.ok [⟨ECOSYSTEM.PIP, "foo", ""⟩] ∧
    (⟨ECOSYSTEM.PIP, "foo", ""⟩ : InstallTarget).version.isEmpty = true :=
  ⟨rfl, rfl⟩

/-- C5 amended: every InstallTarget constructed from a reported token of the
first marker line right-splits its token at the token's last hyphen
(package before, hyphen-free version after, PIP-tagged), and a token with
no hyphen fails the whole resolution; but package or version may be empty
when the token begins or ends with a hyphen. -/
theorem C5_amended_token_split (cmd : PipCommand)
    (probe : List String → ProbeResult) (idx : Nat) (l : List Char)
    (targets : List InstallTarget)
    (hidx : cmd.installSubcommand = some idx)
    (h0 : (probe (dry_run_command cmd idx)).exitCode = 0)
    (hline : (splitWhen (fun c => c = '\n')
        (probe (dry_run_command cmd idx)).stdout.toList).find?
        (fun u => wouldInstallMarker.isPrefixOf u) = some l)
    (hok : (cmd.would_install probe).1 = Except.ok targets) :
    List.Forall₂ TokenParses targets ((pySplit l).drop 2) := by
  rw [would_install_of_probe_ok cmd probe idx hidx h0] at hok
  dsimp only at hok
  rw [scanLines_of_find_some _ l hline] at hok
  exact mapTargets_ok_spec _ targets hok

/-- C5 amended witness: the single target built from token "foo-" satisfies
the split relation with an empty version. -/
theorem C5_amended_witness :
    List.Forall₂ TokenParses [⟨ECOSYSTEM.PIP, "foo", ""⟩]
      ((pySplit "Would install foo-".toList).drop 2) :=
  C5_amended_token_split ⟨["pip", "install", "x"], some 2, "py"⟩
    (fun _ => ⟨0, "Would install foo-"⟩) 2 "Would install foo-".toList
    [⟨ECOSYSTEM.PIP, "foo", ""⟩] rfl rfl rfl rfl

/-- C6: run() spawns exactly the resolved executable, "-m", and the original
command tokens unchanged, and the run's outcome is the spawned process's
exit status. -/
theorem C6_run_original_command (command : List String) (exe : Option String)
    (env : String) (cmd : PipCommand) (exec_sub : List String → Nat)
    (hinit : PipCommand.init command exe env = Except.ok cmd) :
    cmd.run exec_sub =
      (exec_sub ([cmd.executable, "-m"] ++ command),
       [[cmd.executable, "-m"] ++ command]) := by
  obtain ⟨-, hcmd, -, -⟩ := init_ok_spec command exe env cmd hinit
  simp [PipCommand.run, hcmd]

/-- C6 witness: running `pip install requests` spawns
`py -m pip install requests` and reports its exit status. -/
theorem C6_witness :
    (⟨["pip", "install", "requests"], some 2, "py"⟩ : PipCommand).run
      (fun _ => 0) = (0, [["py", "-m", "pip", "install", "requests"]]) :=
  C6_run_original_command ["pip", "install", "requests"] none "py"
    ⟨["pip", "install", "requests"], some 2, "py"⟩ (fun _ => 0) rfl

/-- C7: construction fails for every command that is empty or whose first
token is not "pip", and succeeds storing the command unchanged whenever
the first token is "pip". -/
theorem C7_init_validation (command : List String) (exe : Option String)
    (env : String) :
    (command.head? = some "pip" →
      ∃ cmd, PipCommand.init command exe env = Except.ok cmd ∧
        cmd.command = command) ∧
    (command = [] ∨ command.head? ≠ some "pip" →
      ∃ e, PipCommand.init command exe env = Except.error e) := by
  constructor
  · intro hh
    rw [PipCommand.init, if_pos hh]
    exact ⟨_, rfl, rfl⟩
  · intro hh
    have hne : ¬ command.head? = some "pip" := by
      rcases hh with rfl | h
      · simp
      · exact h
    rw [PipCommand.init, if_neg hne]
    exact ⟨_, rfl⟩

/-- C7 witness: `["pip", "install"]` constructs successfully and stores the
command unchanged. -/
theorem C7_witness :
    ∃ cmd, PipCommand.init ["pip", "install"] none "py" = Except.ok cmd ∧
      cmd.command = ["pip", "install"] :=
  (C7_init_validation ["pip", "install"] none "py").1 rfl

/-- C8: the split point between firewall-owned arguments and the wrapped
command is the least index of a token equal to any known ecosystem program
name, and on successful parsing of the run subcommand the command
attribute is exactly the argv suffix from that index onward. -/
theorem C8_hinge_split (parse : List String → Option ParsedArgs)
    (argv : List String) (r : CliResult)
    (h : parse_command_line parse argv = some r)
    (hr : r.subcommand = Subcommand.Run) :
    r.command = argv.drop (hinge argv) ∧
      (∀ i v eco, argv.get? i = some v → v = ECOSYSTEM.value eco →
        hinge argv ≤ i) ∧
      (hinge argv < argv.length →
        ∃ eco : ECOSYSTEM, argv.get? (hinge argv) = some (ECOSYSTEM.value eco)) := by
  refine ⟨parse_command_line_run_command parse argv r h hr, ?_, ?_⟩
  · intro i v eco hv hvv
    refine hinge_le_of_ecosystem_token argv i v ?_ hv
    cases eco
    · exact Or.inl (by simpa [ECOSYSTEM.value] using hvv)
    · exact Or.inr (by simpa [ECOSYSTEM.value] using hvv)
  · intro hlt
    obtain ⟨v, hv, hget⟩ := hinge_get_ecosystem argv hlt
    rcases hv with rfl | rfl
    · exact ⟨ECOSYSTEM.PIP, hget⟩
    · exact ⟨ECOSYSTEM.NPM, hget⟩

/-- C8 witness: `scfw run pip install x` passes through exactly
`pip install x`. -/
theorem C8_witness :
    (⟨Subcommand.Run, ["pip", "install", "x"]⟩ : CliResult).command =
      ["scfw", "run", "pip", "install", "x"].drop
        (hinge ["scfw", "run", "pip", "install", "x"]) :=
  (C8_hinge_split (fun _ => some ⟨Subcommand.Run⟩)
    ["scfw", "run", "pip", "install", "x"]
    ⟨Subcommand.Run, ["pip", "install", "x"]⟩ rfl rfl).1

/-- C9: when the run subcommand is selected but the command tail after the
hinge is empty, command-line parsing fails and returns none. -/
theorem C9_run_empty_tail (parse : List String → Option ParsedArgs)
    (argv : List String) (args : ParsedArgs)
    (hp : parse ((argv.drop 1).take (hinge argv - 1)) = some args)
    (hr : args.subcommand = Subcommand.Run)
    (hempty : argv.drop (hinge argv) = []) :
    parse_command_line parse argv = none := by
  obtain ⟨s⟩ := args
  cases s with
  | Run =>
    unfold parse_command_line
    rw [hp, hempty]
  | Configure => exact absurd hr (by simp [ParsedArgs.subcommand])

/-- C9 witness: `scfw run` with no package-manager command is rejected. -/
theorem C9_witness :
    parse_command_line (fun _ => some ⟨Subcommand.Run⟩) ["scfw", "run"] = none :=
  C9_run_empty_tail (fun _ => some ⟨Subcommand.Run⟩) ["scfw", "run"]
    ⟨Subcommand.Run⟩ rfl rfl rfl

/-- C10: with a successful probe, the result is determined solely by the
first stdout line starting with "Would install": no such line gives the
empty list (not an error), and later marker lines are ignored. -/
theorem C10_first_marker_line (cmd : PipCommand)
    (probe : List String → ProbeResult) (idx : Nat)
    (hidx : cmd.installSubcommand = some idx)
    (h0 : (probe (dry_run_command cmd idx)).exitCode = 0) :
    (cmd.would_install probe).1 =
      ((splitWhen (fun c => c = '\n')
          (probe (dry_run_command cmd idx)).stdout.toList).find?
          (fun u => wouldInstallMarker.isPrefixOf u)).elim
        (Except.ok [])
        (fun l => mapTargets ((pySplit l).drop 2)) := by
  rw [would_install_of_probe_ok cmd probe idx hidx h0]
  dsimp only
  rw [scanLines_eq_find]
  cases (splitWhen (fun c => c = '\n')
      (probe (dry_run_command cmd idx)).stdout.toList).find?
      (fun u => wouldInstallMarker.isPrefixOf u) <;> rfl

/-- C10 witness: probe output with two marker lines; the result comes from
the first one only. -/
theorem C10_witness :
    ((⟨["pip", "install", "x"], some 2, "py"⟩ : PipCommand).would_install
        (fun _ => ⟨0, "Would install a-1\nWould install b-2"⟩)).1 =
      ((splitWhen (fun c => c = '\n')
          "Would install a-1\nWould install b-2".toList).find?
          (fun u => wouldInstallMarker.isPrefixOf u)).elim
        (Except.ok [])
        (fun l => mapTargets ((pySplit l).drop 2)) :=
  C10_first_marker_line ⟨["pip", "install", "x"], some 2, "py"⟩
    (fun _ => ⟨0, "Would install a-1\nWould install b-2"⟩) 2 rfl rfl
